import Mathlib

/-!
Verification of the oss-compass backend (`backend/main.py`), a shallow
embedding in Lean 4.  External effects (GitHub HTTP calls, the generative
client) are modelled as oracles passed explicitly; Python exceptions become
explicit outcome constructors; Python truthiness on lists / optional strings
is translated case by case.
-/

namespace Compass

open List

/-! ### Reason Generator (`get_ai_analysis`)

The generative client is modelled by its observable outcome on one
credential and one prompt: a successful text response, a
`ResourceExhausted` (quota) exception, or any other exception. -/

/-- Outcome of one `genai` content-generation attempt with one credential:
`ok text` models a successful response (the value of `response.text`),
`resourceExhausted` models `google_exceptions.ResourceExhausted`, and
`otherError` models any other raised exception. -/
inductive GenOutcome where
  | ok (text : String)
  | resourceExhausted
  | otherError
deriving DecidableEq, Repr

/-- Python `s[:n]`: the first `n` characters of `s`. -/
def pyTake (s : String) (n : Nat) : String := String.mk (s.toList.take n)

/-- Python truthiness replacement at the top of `get_ai_analysis`:
`if not issue_body: issue_body = "No description provided."`.
A `None` body or an empty-string body is replaced by the placeholder. -/
def effectiveBody : Option String → String
  | none => "No description provided."
  | some s => if s = "" then "No description provided." else s

/-- The literal text of the prompt template before the issue title. -/
def promptHead : String :=
  "\n    Analyze the following GitHub issue and explain in a single, concise sentence why it is a good first issue for a new open-source contributor.\n    Focus on the task\x27s nature (e.g., \x22documentation update,\x22 \x22simple bug fix,\x22 \x22UI improvement\x22).\n\n    Issue Title: "

/-- The literal text of the prompt template between title and description. -/
def promptMid : String := "\n    Issue Description: "

/-- The literal text of the prompt template after the description. -/
def promptTail : String := "\n\n    Reason:\n    "

/-- The prompt built by `get_ai_analysis` from an issue title and optional
body: the f-string template with the title and the first 500 characters of
the (placeholder-substituted) body interpolated. -/
def get_ai_prompt (issue_title : String) (issue_body : Option String) : String :=
  promptHead ++ issue_title ++ promptMid
    ++ pyTake (effectiveBody issue_body) 500 ++ promptTail

/-- The fixed failure sentinel returned by `get_ai_analysis` when no
credential yields a response. -/
def failureSentinel : String :=
  "AI analysis failed: All API keys are rate-limited or invalid."

/-- The credential loop of `get_ai_analysis`: try each key in order; on
success return the trimmed response text; on `ResourceExhausted` continue
with the next key (`continue`); on any other exception leave the loop
(`break`), reaching the sentinel; the sentinel is also reached when the
list of keys is exhausted. -/
def tryKeys {K : Type} (attempt : K → GenOutcome) : List K → String
  | [] => failureSentinel
  | k :: rest =>
    match attempt k with
    | .ok t => t.trim
    | .resourceExhausted => tryKeys attempt rest
    | .otherError => failureSentinel

/-- `get_ai_analysis(issue_title, issue_body)`: build the prompt once, then
run the credential-failover loop over `keys` with the generative client
`client` (modelled as a function from credential and prompt to outcome). -/
def get_ai_analysis {K : Type} (keys : List K) (client : K → String → GenOutcome)
    (issue_title : String) (issue_body : Option String) : String :=
  tryKeys (fun k => client k (get_ai_prompt issue_title issue_body)) keys

/-- Skipping a block of rate-limited keys: the loop behaves on `pre ++ rest`
as it does on `rest` when every key of `pre` is quota-exhausted. -/
theorem tryKeys_append_exhausted {K : Type} (attempt : K → GenOutcome) (pre rest : List K)
    (h : ∀ x ∈ pre, attempt x = .resourceExhausted) :
    tryKeys attempt (pre ++ rest) = tryKeys attempt rest := by
  induction pre with
  | nil => rfl
  | cons k l ih =>
    have hk := h k (List.mem_cons_self k l)
    simp only [List.cons_append, tryKeys, hk]
    exact ih (fun x hx => h x (List.mem_cons_of_mem k hx))

/-- Every run of the loop either ends in the sentinel or returns the trimmed
text of the first succeeding key, all keys before it being quota-exhausted. -/
theorem tryKeys_characterization {K : Type} (attempt : K → GenOutcome) (l : List K) :
    tryKeys attempt l = failureSentinel
    ∨ ∃ pre k post t, l = pre ++ k :: post
        ∧ (∀ x ∈ pre, attempt x = .resourceExhausted)
        ∧ attempt k = .ok t ∧ tryKeys attempt l = t.trim := by
  induction l with
  | nil => left; rfl
  | cons k rest ih =>
    cases hk : attempt k with
    | ok t =>
      right
      exact ⟨[], k, rest, t, rfl, by simp, hk, by simp [tryKeys, hk]⟩
    | resourceExhausted =>
      rcases ih with h | ⟨pre, k2, post, t, hl, hpre, hk2, hres⟩
      · left; simp [tryKeys, hk, h]
      · right
        refine ⟨k :: pre, k2, post, t, by simp [hl], ?_, hk2, ?_⟩
        · rintro x hx
          rcases List.mem_cons.mp hx with rfl | hx
          · exact hk
          · exact hpre x hx
        · simpa [tryKeys, hk] using hres
    | otherError => left; simp [tryKeys, hk]

/-- C1: `get_ai_analysis` tries credentials in list order: after any block of
quota-exhausted credentials, a succeeding credential returns its trimmed
response text immediately (the keys after it, `post`, are irrelevant), a
credential failing with any other error yields the fixed sentinel at once
(again ignoring `post`), and exhausting every credential via quota errors
yields the fixed sentinel `"AI analysis failed: All API keys are
rate-limited or invalid."`. -/
theorem c1_credential_failover {K : Type} (client : K → String → GenOutcome)
    (issue_title : String) (issue_body : Option String)
    (pre post : List K) (k : K) (t : String)
    (hpre : ∀ x ∈ pre,
      client x (get_ai_prompt issue_title issue_body) = .resourceExhausted) :
    get_ai_analysis pre client issue_title issue_body = failureSentinel
    ∧ (client k (get_ai_prompt issue_title issue_body) = .ok t →
        get_ai_analysis (pre ++ k :: post) client issue_title issue_body = t.trim)
    ∧ (client k (get_ai_prompt issue_title issue_body) = .otherError →
        get_ai_analysis (pre ++ k :: post) client issue_title issue_body
          = failureSentinel) := by
  unfold get_ai_analysis
  refine ⟨?_, ?_, ?_⟩
  · have h := tryKeys_append_exhausted
      (fun x => client x (get_ai_prompt issue_title issue_body)) pre [] hpre
    rw [List.append_nil] at h
    exact h
  · intro hk
    rw [tryKeys_append_exhausted _ pre _ hpre]
    simp [tryKeys, hk]
  · intro hk
    rw [tryKeys_append_exhausted _ pre _ hpre]
    simp [tryKeys, hk]

/-- A demonstration client over `Nat` credentials: key 0 is quota-exhausted,
key 1 succeeds with padded text, any other key raises a generic error. -/
def demoClient : Nat → String → GenOutcome := fun k _ =>
  if k = 0 then .resourceExhausted
  else if k = 1 then .ok "  A bug fix.  " else .otherError

/-- Witness for C1 at concrete inputs: with keys `[0]` (all rate-limited) the
sentinel is returned; with keys `[0, 1, 2]` the trimmed text of key 1 is
returned. -/
theorem c1_credential_failover_witness :
    get_ai_analysis [0] demoClient "Fix typo" none = failureSentinel
    ∧ get_ai_analysis [0, 1, 2] demoClient "Fix typo" none
        = "  A bug fix.  ".trim := by
  have hpre : ∀ x ∈ [0],
      demoClient x (get_ai_prompt "Fix typo" none) = .resourceExhausted := by
    intro x hx
    rcases List.mem_singleton.mp hx with rfl
    rfl
  have h := c1_credential_failover demoClient "Fix typo" none [0] [2] 1
    "  A bug fix.  " hpre
  exact ⟨h.1, h.2.1 rfl⟩

/-- C6: the prompt built by the Reason Generator is the fixed template with
the issue title embedded verbatim and at most the first 500 characters of
the (effective) body embedded; when the body is absent (`None` or empty) the
placeholder `"No description provided."` is substituted for it. -/
theorem c6_prompt_shape (issue_title : String) (issue_body : Option String) :
    get_ai_prompt issue_title issue_body =
      promptHead ++ issue_title ++ promptMid
        ++ pyTake (effectiveBody issue_body) 500 ++ promptTail
    ∧ pyTake (effectiveBody issue_body) 500
        = String.mk ((effectiveBody issue_body).toList.take 500)
    ∧ (pyTake (effectiveBody issue_body) 500).length ≤ 500
    ∧ ((issue_body = none ∨ issue_body = some "") →
        effectiveBody issue_body = "No description provided.") := by
  refine ⟨rfl, rfl, ?_, ?_⟩
  · show (String.mk ((effectiveBody issue_body).toList.take 500)).length ≤ 500
    simp
  · rintro (rfl | rfl)
    · rfl
    · decide

/-- Witness for C6 at a concrete input: empty body gives the placeholder. -/
theorem c6_prompt_shape_witness :
    (pyTake (effectiveBody (some "")) 500).length ≤ 500
    ∧ effectiveBody (some "") = "No description provided." :=
  ⟨(c6_prompt_shape "Fix typo" (some "")).2.2.1,
   (c6_prompt_shape "Fix typo" (some "")).2.2.2 (Or.inr rfl)⟩

/-- C10: `get_ai_analysis` is total over client behaviour: whatever outcome
the generative client produces on each credential, the result is a string —
either the trimmed response text of the first succeeding credential (all
credentials before it having been quota-exhausted) or the fixed sentinel. -/
theorem c10_total_over_client {K : Type} (keys : List K)
    (client : K → String → GenOutcome)
    (issue_title : String) (issue_body : Option String) :
    get_ai_analysis keys client issue_title issue_body = failureSentinel
    ∨ ∃ pre k post t, keys = pre ++ k :: post
        ∧ (∀ x ∈ pre,
            client x (get_ai_prompt issue_title issue_body) = .resourceExhausted)
        ∧ client k (get_ai_prompt issue_title issue_body) = .ok t
        ∧ get_ai_analysis keys client issue_title issue_body = t.trim :=
  tryKeys_characterization
    (fun k => client k (get_ai_prompt issue_title issue_body)) keys

/-! ### Language Profiler (`get_user_top_languages`)

The GitHub repository-list call is modelled as an oracle from username to a
fetch outcome.  `Counter(languages).most_common(count)` is modelled as a
stable sort of the per-language counts in descending order of count, keys
listed in first-encounter order (CPython documents both behaviours);
insertion sort with a descending-count comparison is exactly such a stable
sort. -/

/-- One repository entry as consumed by the profiler: only its declared
primary language (`repo["language"]`, possibly `null`) is read. -/
structure Repo where
  language : Option String
deriving DecidableEq, Repr

/-- Outcome of `GET /users/{username}/repos`: `failure` covers a transport
error as well as a non-success status (`raise_for_status` raising inside the
`try` block); `success repos` is the decoded JSON list. -/
inductive FetchResult where
  | failure
  | success (repos : List Repo)
deriving DecidableEq, Repr

/-- The distinct elements of a list in order of first occurrence — the key
iteration order of a Python `Counter` built from the list. -/
def firstOccurrences : List String → List String
  | [] => []
  | x :: xs => x :: firstOccurrences (xs.filter (fun y => decide (y ≠ x)))
termination_by l => l.length
decreasing_by
  simp only [List.length_cons]
  exact Nat.lt_succ_of_le (List.length_filter_le _ _)

/-- The Python `Counter(languages)` as an association list: each distinct
language in first-encounter order paired with its occurrence count. -/
def counterEntries (languages : List String) : List (String × Nat) :=
  (firstOccurrences languages).map (fun l => (l, languages.count l))

/-- The comparison `most_common` sorts by: descending occurrence count. -/
def countGe (p q : String × Nat) : Prop := q.2 ≤ p.2

instance : DecidableRel countGe := fun p q => Nat.decLe q.2 p.2

instance : IsTotal (String × Nat) countGe := ⟨fun p q => Nat.le_total q.2 p.2⟩

instance : IsTrans (String × Nat) countGe := ⟨fun _ _ _ h1 h2 => le_trans h2 h1⟩

/-- `Counter(languages).most_common(n)`: entries sorted stably by
descending count (ties keep first-encounter order), truncated to `n`. -/
def mostCommon (languages : List String) (n : Nat) : List (String × Nat) :=
  (List.insertionSort countGe (counterEntries languages)).take n

/-- `get_user_top_languages(username, count)` (the source calls it with the
default `count=3`): fetch the repositories; on transport/status failure
return `[]`; if the list is empty return `[]`; collect the non-null
language tags; if there are none return `[]`; otherwise return the keys of
the `count` most common tags. -/
def get_user_top_languages (fetchRepos : String → FetchResult)
    (username : String) (count : Nat) : List String :=
  match fetchRepos username with
  | .failure => []
  | .success repos =>
    if repos = [] then []
    else
      let languages := repos.filterMap Repo.language
      if languages = [] then []
      else (mostCommon languages count).map Prod.fst

/-- The non-null declared languages of a fetch result, in repository order. -/
def declaredLanguages : FetchResult → List String
  | .failure => []
  | .success repos => repos.filterMap Repo.language

/-- Membership is preserved by keeping only first occurrences. -/
theorem mem_firstOccurrences : ∀ {l : List String} {a : String},
    a ∈ firstOccurrences l ↔ a ∈ l := by
  intro l
  induction l using firstOccurrences.induct with
  | case1 => simp [firstOccurrences]
  | case2 x xs ih =>
    intro a
    rw [firstOccurrences]
    by_cases hax : a = x
    · subst hax; simp
    · simp only [List.mem_cons, ih, List.mem_filter, decide_eq_true_eq]
      constructor
      · rintro (rfl | ⟨h, _⟩)
        · exact Or.inl rfl
        · exact Or.inr h
      · rintro (rfl | h)
        · exact Or.inl rfl
        · exact Or.inr ⟨h, hax⟩

/-- The first-occurrence list has no duplicates. -/
theorem nodup_firstOccurrences : ∀ (l : List String),
    (firstOccurrences l).Nodup := by
  intro l
  induction l using firstOccurrences.induct with
  | case1 => simp [firstOccurrences]
  | case2 x xs ih =>
    rw [firstOccurrences]
    refine List.nodup_cons.mpr ⟨?_, ih⟩
    intro hx
    rcases List.mem_filter.mp (mem_firstOccurrences.mp hx) with ⟨-, hne⟩
    simp at hne

/-- Filtering preserves the relative order of first occurrences. -/
theorem indexOf_filter_lt (p : String → Bool) :
    ∀ (l : List String) (a b : String), a ∈ l.filter p → b ∈ l.filter p →
      l.indexOf a < l.indexOf b →
      (l.filter p).indexOf a < (l.filter p).indexOf b := by
  intro l
  induction l with
  | nil => intro a b ha _ _; simp at ha
  | cons y ys ih =>
    intro a b ha hb hlt
    have hab : a ≠ b := by
      rintro rfl; exact lt_irrefl _ hlt
    by_cases hya : y = a
    · subst hya
      have hpy : p y = true := (List.mem_filter.mp ha).2
      rw [List.filter_cons_of_pos hpy]
      rw [List.indexOf_cons_self]
      have hby : b ≠ y := fun h => hab h.symm
      have hbmem : b ∈ (ys.filter p) := by
        rcases List.mem_filter.mp hb with ⟨hb2, hpb⟩
        rcases List.mem_cons.mp hb2 with rfl | hb3
        · exact absurd rfl hby
        · exact List.mem_filter.mpr ⟨hb3, hpb⟩
      have := List.indexOf_cons_ne (ys.filter p) (a := b) (fun h => hby h.symm)
      omega
    · by_cases hyb : y = b
      · subst hyb
        rw [List.indexOf_cons_self] at hlt
        omega
      · have hamem : a ∈ ys.filter p := by
          rcases List.mem_filter.mp ha with ⟨ha2, hpa⟩
          rcases List.mem_cons.mp ha2 with rfl | ha3
          · exact absurd rfl hya
          · exact List.mem_filter.mpr ⟨ha3, hpa⟩
        have hbmem : b ∈ ys.filter p := by
          rcases List.mem_filter.mp hb with ⟨hb2, hpb⟩
          rcases List.mem_cons.mp hb2 with rfl | hb3
          · exact absurd rfl hyb
          · exact List.mem_filter.mpr ⟨hb3, hpb⟩
        have hlt2 : ys.indexOf a < ys.indexOf b := by
          rw [List.indexOf_cons_ne ys (fun h => hya h),
              List.indexOf_cons_ne ys (fun h => hyb h)] at hlt
          omega
        have hrec := ih a b hamem hbmem hlt2
        by_cases hpy : p y = true
        · rw [List.filter_cons_of_pos hpy,
              List.indexOf_cons_ne _ (fun h => hya h),
              List.indexOf_cons_ne _ (fun h => hyb h)]
          omega
        · rw [List.filter_cons_of_neg (by simpa using hpy)]
          exact hrec

/-- If the first occurrence of `a` precedes the first occurrence of `b`,
then `a` precedes `b` in the first-occurrence list. -/
theorem pair_sublist_firstOccurrences :
    ∀ (l : List String) (a b : String), a ∈ l → b ∈ l →
      l.indexOf a < l.indexOf b → [a, b] <+ firstOccurrences l := by
  intro l
  induction l using firstOccurrences.induct with
  | case1 => intro a b ha _ _; simp at ha
  | case2 x xs ih =>
    intro a b ha hb hlt
    have hab : a ≠ b := by rintro rfl; exact lt_irrefl _ hlt
    rw [firstOccurrences]
    by_cases hbx : b = x
    · subst hbx
      rw [List.indexOf_cons_self] at hlt
      omega
    by_cases hax : a = x
    · subst hax
      have hbxs : b ∈ xs := by
        rcases List.mem_cons.mp hb with rfl | h
        · exact absurd rfl hbx
        · exact h
      have hbf : b ∈ xs.filter (fun y => decide (y ≠ a)) :=
        List.mem_filter.mpr ⟨hbxs, by simpa using hbx⟩
      exact (List.cons_sublist_cons).mpr
        (List.singleton_sublist.mpr (mem_firstOccurrences.mpr hbf))
    · have haxs : a ∈ xs := by
        rcases List.mem_cons.mp ha with rfl | h
        · exact absurd rfl hax
        · exact h
      have hbxs : b ∈ xs := by
        rcases List.mem_cons.mp hb with rfl | h
        · exact absurd rfl hbx
        · exact h
      have haf : a ∈ xs.filter (fun y => decide (y ≠ x)) :=
        List.mem_filter.mpr ⟨haxs, by simpa using hax⟩
      have hbf : b ∈ xs.filter (fun y => decide (y ≠ x)) :=
        List.mem_filter.mpr ⟨hbxs, by simpa using hbx⟩
      have hlt2 : xs.indexOf a < xs.indexOf b := by
        rw [List.indexOf_cons_ne xs (fun h => hax h.symm),
            List.indexOf_cons_ne xs (fun h => hbx h.symm)] at hlt
        omega
      have hlt3 := indexOf_filter_lt (fun y => decide (y ≠ x)) xs a b haf hbf hlt2
      exact (ih a b haf hbf hlt3).cons x

/-- In a duplicate-free list, a pair sublist survives truncation as long as
its second component survives. -/
theorem pair_sublist_take {α : Type} {s : List α} {p q : α} :
    ∀ {n : Nat}, s.Nodup → [p, q] <+ s → q ∈ s.take n → [p, q] <+ s.take n := by
  induction s with
  | nil =>
    intro n _ hpq
    exact absurd (hpq.subset (by simp : q ∈ [p, q])) (List.not_mem_nil q)
  | cons y ys ih =>
    intro n hnd hpq hq
    cases n with
    | zero => simp at hq
    | succ m =>
      rcases List.nodup_cons.mp hnd with ⟨hy, hnd2⟩
      rw [List.take_succ_cons] at hq ⊢
      cases hpq with
      | cons _ h =>
        have hqys : q ∈ ys := h.subset (by simp)
        have hq2 : q ∈ ys.take m := by
          rcases List.mem_cons.mp hq with rfl | h2
          · exact absurd hqys hy
          · exact h2
        exact (ih hnd2 h hq2).cons y
      | cons₂ _ h =>
        have hqys : q ∈ ys := h.subset (by simp)
        have hq2 : q ∈ ys.take m := by
          rcases List.mem_cons.mp hq with rfl | h2
          · exact absurd hqys hy
          · exact h2
        exact (List.cons_sublist_cons).mpr (List.singleton_sublist.mpr hq2)

/-- In a duplicate-free list, a pair sublist fixes the relative order of the
indices of its two components. -/
theorem indexOf_lt_of_pair_sublist {α : Type} [DecidableEq α] :
    ∀ {s : List α} {a b : α}, s.Nodup → [a, b] <+ s →
      s.indexOf a < s.indexOf b := by
  intro s
  induction s with
  | nil =>
    intro a b _ h
    exact absurd (h.subset (by simp : a ∈ [a, b])) (List.not_mem_nil a)
  | cons y ys ih =>
    intro a b hnd h
    rcases List.nodup_cons.mp hnd with ⟨hy, hnd2⟩
    cases h with
    | cons _ h2 =>
      have ha : a ∈ ys := h2.subset (by simp)
      have hb : b ∈ ys := h2.subset (by simp)
      have hay : y ≠ a := fun hc => hy (hc ▸ ha)
      have hby : y ≠ b := fun hc => hy (hc ▸ hb)
      rw [List.indexOf_cons_ne ys hay, List.indexOf_cons_ne ys hby]
      exact Nat.succ_lt_succ (ih hnd2 h2)
    | cons₂ _ h2 =>
      have hb : b ∈ ys := h2.subset (by simp)
      have hby : y ≠ b := fun hc => hy (hc ▸ hb)
      rw [List.indexOf_cons_self, List.indexOf_cons_ne ys hby]
      exact Nat.succ_pos _

/-- The keys of the counter entries are the first occurrences. -/
theorem map_fst_counterEntries (languages : List String) :
    (counterEntries languages).map Prod.fst = firstOccurrences languages := by
  simp [counterEntries, List.map_map, Function.comp_def]

/-- Each counter entry records the count of its key, a key of the list. -/
theorem mem_counterEntries {languages : List String} {p : String × Nat}
    (hp : p ∈ counterEntries languages) :
    p.2 = languages.count p.1 ∧ p.1 ∈ languages := by
  rcases List.mem_map.mp hp with ⟨l, hl, rfl⟩
  exact ⟨rfl, mem_firstOccurrences.mp hl⟩

/-- The counter has one entry per distinct language. -/
theorem nodup_counterEntries (languages : List String) :
    (counterEntries languages).Nodup :=
  (nodup_firstOccurrences languages).map
    (fun _ _ h => congrArg Prod.fst h)

/-- Every key in the truncated sorted counter is an observed language. -/
theorem mem_languages_of_mem_mostCommon {languages : List String} {n : Nat}
    {a : String} (ha : a ∈ (mostCommon languages n).map Prod.fst) :
    a ∈ languages := by
  rcases List.mem_map.mp ha with ⟨p, hp, rfl⟩
  have hp2 : p ∈ List.insertionSort countGe (counterEntries languages) :=
    List.mem_of_mem_take hp
  have hp3 : p ∈ counterEntries languages :=
    (List.perm_insertionSort countGe _).mem_iff.mp hp2
  exact (mem_counterEntries hp3).2

/-- The truncated sorted counter keys are ordered by descending count. -/
theorem pairwise_mostCommon (languages : List String) (n : Nat) :
    ((mostCommon languages n).map Prod.fst).Pairwise
      (fun a b => languages.count b ≤ languages.count a) := by
  have hs : List.Sorted countGe
      (List.insertionSort countGe (counterEntries languages)) :=
    List.sorted_insertionSort countGe _
  have htake : (mostCommon languages n).Pairwise countGe :=
    hs.sublist (List.take_sublist _ _)
  rw [List.pairwise_map]
  refine htake.imp_of_mem ?_
  intro p q hp hq hpq
  have hp3 : p ∈ counterEntries languages :=
    (List.perm_insertionSort countGe _).mem_iff.mp (List.mem_of_mem_take hp)
  have hq3 : q ∈ counterEntries languages :=
    (List.perm_insertionSort countGe _).mem_iff.mp (List.mem_of_mem_take hq)
  have hcp := (mem_counterEntries hp3).1
  have hcq := (mem_counterEntries hq3).1
  unfold countGe at hpq
  rw [hcp, hcq] at hpq
  exact hpq

/-- The truncated sorted counter keys contain no duplicates. -/
theorem nodup_mostCommon_keys (languages : List String) (n : Nat) :
    ((mostCommon languages n).map Prod.fst).Nodup := by
  have hperm : (List.insertionSort countGe (counterEntries languages)).map
      Prod.fst ~ (counterEntries languages).map Prod.fst :=
    (List.perm_insertionSort countGe _).map Prod.fst
  have hnd : ((List.insertionSort countGe (counterEntries languages)).map
      Prod.fst).Nodup := by
    rw [hperm.nodup_iff, map_fst_counterEntries]
    exact nodup_firstOccurrences languages
  exact hnd.sublist ((List.take_sublist _ _).map Prod.fst)

/-- C2: for every username and count, `get_user_top_languages` returns at
most `count` languages, ordered by descending occurrence count among the
non-null declared languages of the fetched repositories, each of them such
a declared language; and it returns the same empty list when the fetch
fails, when the user has no repositories, and when no repository declares a
language. -/
theorem c2_top_languages (fetchRepos : String → FetchResult)
    (username : String) (count : Nat) :
    (get_user_top_languages fetchRepos username count).length ≤ count
    ∧ (get_user_top_languages fetchRepos username count).Pairwise
        (fun a b => (declaredLanguages (fetchRepos username)).count b
          ≤ (declaredLanguages (fetchRepos username)).count a)
    ∧ (∀ l ∈ get_user_top_languages fetchRepos username count,
        l ∈ declaredLanguages (fetchRepos username))
    ∧ (fetchRepos username = .failure →
        get_user_top_languages fetchRepos username count = [])
    ∧ (fetchRepos username = .success [] →
        get_user_top_languages fetchRepos username count = [])
    ∧ (∀ repos, fetchRepos username = .success repos →
        repos.filterMap Repo.language = [] →
        get_user_top_languages fetchRepos username count = []) := by
  cases hf : fetchRepos username with
  | failure =>
    have hres : get_user_top_languages fetchRepos username count = [] := by
      simp [get_user_top_languages, hf]
    rw [hres]
    exact ⟨by simp, by simp, by simp, fun _ => rfl, fun _ => rfl,
      fun _ _ _ => rfl⟩
  | success repos =>
    by_cases hre : repos = []
    · subst hre
      have hres : get_user_top_languages fetchRepos username count = [] := by
        simp [get_user_top_languages, hf]
      rw [hres]
      exact ⟨by simp, by simp, by simp, fun h => rfl, fun _ => rfl,
        fun _ _ _ => rfl⟩
    · by_cases hlang : repos.filterMap Repo.language = []
      · have hres : get_user_top_languages fetchRepos username count = [] := by
          simp [get_user_top_languages, hf, hre, hlang]
        rw [hres]
        exact ⟨by simp, by simp, by simp, fun h => rfl, fun _ => rfl,
          fun _ _ _ => rfl⟩
      · have hres : get_user_top_languages fetchRepos username count
            = (mostCommon (repos.filterMap Repo.language) count).map Prod.fst := by
          simp [get_user_top_languages, hf, hre, hlang]
        have hdecl : declaredLanguages (FetchResult.success repos)
            = repos.filterMap Repo.language := rfl
        rw [hres, hdecl]
        refine ⟨?_, pairwise_mostCommon _ count,
          fun l hl => mem_languages_of_mem_mostCommon hl, ?_, ?_, ?_⟩
        · rw [List.length_map, mostCommon, List.length_take]
          exact min_le_left _ _
        · intro h; simp at h
        · intro h
          simp at h
          exact absurd h hre
        · intro repos2 h hr2
          simp at h
          rw [← h] at hr2
          exact absurd hr2 hlang

/-- C9: ties in `get_user_top_languages` keep first-occurrence order — if
two returned languages have the same occurrence count among the declared
languages, the one whose first occurrence comes earlier in the fetched
repository list comes earlier in the result (`Counter.most_common` is a
stable descending sort over keys listed in first-encounter order). -/
theorem c9_tie_order (fetchRepos : String → FetchResult) (username : String)
    (repos : List Repo) (count : Nat) (a b : String)
    (hf : fetchRepos username = .success repos)
    (ha : a ∈ get_user_top_languages fetchRepos username count)
    (hb : b ∈ get_user_top_languages fetchRepos username count)
    (hcnt : (repos.filterMap Repo.language).count a
      = (repos.filterMap Repo.language).count b)
    (hidx : (repos.filterMap Repo.language).indexOf a
      < (repos.filterMap Repo.language).indexOf b) :
    (get_user_top_languages fetchRepos username count).indexOf a
      < (get_user_top_languages fetchRepos username count).indexOf b := by
  by_cases hre : repos = []
  · exfalso
    have hres : get_user_top_languages fetchRepos username count = [] := by
      simp [get_user_top_languages, hf, hre]
    rw [hres] at ha
    exact absurd ha (List.not_mem_nil a)
  by_cases hlang : repos.filterMap Repo.language = []
  · exfalso
    have hres : get_user_top_languages fetchRepos username count = [] := by
      simp [get_user_top_languages, hf, hre, hlang]
    rw [hres] at ha
    exact absurd ha (List.not_mem_nil a)
  have hres : get_user_top_languages fetchRepos username count
      = (mostCommon (repos.filterMap Repo.language) count).map Prod.fst := by
    simp [get_user_top_languages, hf, hre, hlang]
  rw [hres] at ha hb ⊢
  set L := repos.filterMap Repo.language with hL
  have haL : a ∈ L := mem_languages_of_mem_mostCommon ha
  have hbL : b ∈ L := mem_languages_of_mem_mostCommon hb
  have hfo : [a, b] <+ firstOccurrences L :=
    pair_sublist_firstOccurrences L a b haL hbL hidx
  have hpair : [(a, L.count a), (b, L.count b)] <+ counterEntries L := by
    have := hfo.map (fun l => (l, L.count l))
    simpa [counterEntries] using this
  have hr : countGe (a, L.count a) (b, L.count b) := le_of_eq hcnt.symm
  have hsorted_pair : [(a, L.count a), (b, L.count b)]
      <+ List.insertionSort countGe (counterEntries L) :=
    List.pair_sublist_insertionSort hr hpair
  have hnodup_sorted : (List.insertionSort countGe (counterEntries L)).Nodup :=
    ((List.perm_insertionSort countGe _).nodup_iff).mpr (nodup_counterEntries L)
  have hbtake : (b, L.count b) ∈ mostCommon L count := by
    rcases List.mem_map.mp hb with ⟨q, hq, hq1⟩
    have hq3 : q ∈ counterEntries L :=
      (List.perm_insertionSort countGe _).mem_iff.mp (List.mem_of_mem_take hq)
    have hq4 := (mem_counterEntries hq3).1
    have : q = (b, L.count b) := by
      rcases q with ⟨q1, q2⟩
      simp only at hq1 hq4
      rw [hq1] at hq4 ⊢
      rw [hq4]
    exact this ▸ hq
  have htakepair : [(a, L.count a), (b, L.count b)] <+ mostCommon L count :=
    pair_sublist_take hnodup_sorted hsorted_pair hbtake
  have hfinal : [a, b] <+ (mostCommon L count).map Prod.fst := by
    have := htakepair.map Prod.fst
    simpa using this
  exact indexOf_lt_of_pair_sublist (nodup_mostCommon_keys L count) hfinal

/-- A demonstration repository fetcher: the spec example
`[{language:"Go"},{language:"Go"},{language:"Rust"},{language:null}]`. -/
def demoFetch : String → FetchResult := fun _ =>
  .success [⟨some "Go"⟩, ⟨some "Go"⟩, ⟨some "Rust"⟩, ⟨none⟩]

/-- A demonstration fetcher that always fails. -/
def demoFetchFail : String → FetchResult := fun _ => .failure

/-- A demonstration fetcher with a count tie: Go and Rust both occur twice,
Go first. -/
def demoFetchTie : String → FetchResult := fun _ =>
  .success [⟨some "Go"⟩, ⟨some "Rust"⟩, ⟨some "Go"⟩, ⟨some "Rust"⟩]

/-- The spec example: `["Go","Go","Rust",null]` with count 3 profiles to
`["Go","Rust"]`. -/
theorem demoFetch_eval : get_user_top_languages demoFetch "octocat" 3
    = ["Go", "Rust"] := by
  simp [get_user_top_languages, demoFetch, mostCommon, counterEntries,
    firstOccurrences, countGe, List.count_cons, List.insertionSort,
    List.orderedInsert]

/-- The tie example evaluates with Go (earlier first occurrence) first. -/
theorem demoFetchTie_eval : get_user_top_languages demoFetchTie "octocat" 3
    = ["Go", "Rust"] := by
  simp [get_user_top_languages, demoFetchTie, mostCommon, counterEntries,
    firstOccurrences, countGe, List.count_cons, List.insertionSort,
    List.orderedInsert]

/-- Witness for C2 at concrete inputs: bounded length and membership on the
spec example, and the empty result on a failing fetch. -/
theorem c2_top_languages_witness :
    (get_user_top_languages demoFetch "octocat" 3).length ≤ 3
    ∧ (∀ l ∈ get_user_top_languages demoFetch "octocat" 3,
        l ∈ declaredLanguages (demoFetch "octocat"))
    ∧ get_user_top_languages demoFetchFail "octocat" 3 = [] :=
  ⟨(c2_top_languages demoFetch "octocat" 3).1,
   (c2_top_languages demoFetch "octocat" 3).2.2.1,
   (c2_top_languages demoFetchFail "octocat" 3).2.2.2.1 rfl⟩

/-- Witness for C9 at a concrete input: on the tie example, Go and Rust have
equal counts and Go keeps its earlier place in the result. -/
theorem c9_tie_order_witness :
    (get_user_top_languages demoFetchTie "octocat" 3).indexOf "Go"
      < (get_user_top_languages demoFetchTie "octocat" 3).indexOf "Rust" := by
  refine c9_tie_order demoFetchTie "octocat"
    [⟨some "Go"⟩, ⟨some "Rust"⟩, ⟨some "Go"⟩, ⟨some "Rust"⟩] 3 "Go" "Rust"
    rfl ?_ ?_ ?_ ?_
  · rw [demoFetchTie_eval]; simp
  · rw [demoFetchTie_eval]; simp
  · decide
  · decide

/-! ### Issue Finder (`find_good_first_issues`) -/

/-- One search-result issue as consumed downstream: the repository
reference URL, the title, the nullable body, and the HTML link. -/
structure Issue where
  repository_url : String
  title : String
  body : Option String
  html_url : String
deriving DecidableEq, Repr

/-- Outcome of `GET /search/issues`: a transport failure (`requests.get`
itself raising), or a response carrying a status code and the optional
`items` field of the decoded JSON body (`.get("items", [])` defaults a
missing field to `[]`). -/
inductive SearchHttp where
  | transportError
  | response (status : Nat) (items : Option (List Issue))
deriving DecidableEq, Repr

/-- `find_good_first_issues(language)`: on a transport failure return
`None`; on a 403 status log the rate limit and return `None`;
`raise_for_status` raises exactly when `400 ≤ status < 600` (caught by the
same `except`, returning `None`); otherwise return
`response.json().get("items", [])`. -/
def find_good_first_issues (search : String → SearchHttp)
    (language : String) : Option (List Issue) :=
  match search language with
  | .transportError => none
  | .response status items =>
    if status = 403 then none
    else if 400 ≤ status ∧ status < 600 then none
    else some (items.getD [])

/-- C4: `find_good_first_issues` returns `None` both on an upstream 403 (the
logged rate-limit case) and on a transport failure — the caller cannot tell
them apart — and returns the empty list, not `None`, when the search
succeeds with zero matching issues. -/
theorem c4_find_issues (search : String → SearchHttp) (language : String) :
    (search language = .transportError →
      find_good_first_issues search language = none)
    ∧ (∀ items, search language = .response 403 items →
        find_good_first_issues search language = none)
    ∧ (∀ status, status < 400 → search language = .response status (some []) →
        find_good_first_issues search language = some []) := by
  refine ⟨?_, ?_, ?_⟩
  · intro h
    simp [find_good_first_issues, h]
  · intro items h
    simp [find_good_first_issues, h]
  · intro status hlt h
    have h403 : ¬(status = 403) := by omega
    have hraise : ¬(400 ≤ status ∧ status < 600) := by omega
    simp [find_good_first_issues, h, h403, hraise]

/-- A demonstration search oracle: Go succeeds with no matches, Python is
rate-limited, anything else fails in transport. -/
def demoSearch : String → SearchHttp := fun lang =>
  if lang = "Go" then .response 200 (some [])
  else if lang = "Python" then .response 403 (some []) else .transportError

/-- Witness for C4 at concrete inputs. -/
theorem c4_find_issues_witness :
    find_good_first_issues demoSearch "Ruby" = none
    ∧ find_good_first_issues demoSearch "Python" = none
    ∧ find_good_first_issues demoSearch "Go" = some [] :=
  ⟨(c4_find_issues demoSearch "Ruby").1 (by decide),
   (c4_find_issues demoSearch "Python").2.1 (some []) (by decide),
   (c4_find_issues demoSearch "Go").2.2 200 (by decide) (by decide)⟩

/-! ### Orchestrator (the `__main__` block) -/

/-- An annotated issue as assembled for output: derived repository full
name, title, HTML link, and AI reason. -/
structure AnnotatedIssue where
  repo_name : String
  title : String
  link : String
  ai_reason : String
deriving DecidableEq, Repr

/-- Python `s.split(sep)` for a one-character separator: splits on every
occurrence and keeps empty segments (so the result is never empty). -/
def pySplitAux (sep : Char) : List Char → List Char → List String
  | [], acc => [String.mk acc.reverse]
  | c :: cs, acc =>
    if c = sep then String.mk acc.reverse :: pySplitAux sep cs []
    else pySplitAux sep cs (c :: acc)

/-- Python `s.split('/')` and friends, on the characters of `s`. -/
def pySplit (s : String) (sep : Char) : List String :=
  pySplitAux sep s.toList []

/-- Python `parts[-n]` (for `n = 1, 2` on lists of length at least `n`):
`parts[len(parts) - n]`. -/
def pyNegIdx (parts : List String) (n : Nat) : String :=
  parts.getD (parts.length - n) ""

/-- `issue['repository_url'].split('/')[-2] + '/' +
issue['repository_url'].split('/')[-1]`. -/
def repoFullName (url : String) : String :=
  pyNegIdx (pySplit url '/') 2 ++ "/" ++ pyNegIdx (pySplit url '/') 1

/-- The body of the CLI inner loop, assembling one printed record: derive
the repository full name and attach `get_ai_analysis(title, body)`. -/
def annotateIssue {K : Type} (keys : List K) (client : K → String → GenOutcome)
    (issue : Issue) : AnnotatedIssue :=
  { repo_name := repoFullName issue.repository_url
    title := issue.title
    link := issue.html_url
    ai_reason := get_ai_analysis keys client issue.title issue.body }

/-- The observable calls the orchestrator makes to the GitHub oracles. -/
inductive Call where
  | profile (username : String)
  | search (language : String)
deriving DecidableEq, Repr

/-- The language loop: call `find_good_first_issues` on each language in
order; Python's `if issues:` treats `None` and `[]` alike (both skipped);
stop at the first non-empty list (`break`).  Returns the trace of searched
languages together with the selected language and its issues, if any. -/
def selectLanguage (findIssues : String → Option (List Issue)) :
    List String → List String × Option (String × List Issue)
  | [] => ([], none)
  | lang :: rest =>
    match findIssues lang with
    | some (i :: is) => ([lang], some (lang, i :: is))
    | _ =>
      let p := selectLanguage findIssues rest
      (lang :: p.1, p.2)

/-- Outcome of one CLI run. -/
inductive CliResult where
  | usageError (msg : String)
  | noLanguages
  | found (language : String) (issues : List AnnotatedIssue)
  | noIssues
deriving DecidableEq, Repr

/-- The usage message printed when the username argument is missing. -/
def usageMessage : String := "Usage: python main.py <github_username>"

/-- The process exit code of each outcome: `sys.exit(1)` on a missing
argument and when no languages are determined; the script otherwise runs to
its end and exits 0 — including the no-issues-found path. -/
def exitCode : CliResult → Nat
  | .usageError _ => 1
  | .noLanguages => 1
  | .found _ _ => 0
  | .noIssues => 0

/-- The `__main__` block: if `len(sys.argv) < 2`, print the usage message
and exit 1 before any external call; else profile `sys.argv[1]` (the
source uses the default `count=3`); if no languages, exit 1; else run the
language loop, annotate each issue of the selected list, and report.
Returns the outcome plus the trace of GitHub calls made. -/
def run_main {K : Type} (fetchRepos : String → FetchResult)
    (findIssues : String → Option (List Issue))
    (keys : List K) (client : K → String → GenOutcome)
    (argv : List String) : CliResult × List Call :=
  match argv with
  | [] => (.usageError usageMessage, [])
  | [_] => (.usageError usageMessage, [])
  | _ :: username :: _ =>
    let top_langs := get_user_top_languages fetchRepos username 3
    if top_langs = [] then (.noLanguages, [.profile username])
    else
      let p := selectLanguage findIssues top_langs
      match p.2 with
      | some (lang, issues) =>
        (.found lang (issues.map (annotateIssue keys client)),
          .profile username :: p.1.map .search)
      | none => (.noIssues, .profile username :: p.1.map .search)

/-- The language loop skips every language whose search returns `None` or
`[]` and stops at the first language with a non-empty issue list, having
searched exactly the skipped languages and the selected one, in order. -/
theorem selectLanguage_first_nonempty
    (findIssues : String → Option (List Issue))
    (skipped : List String) (lang : String) (rest : List String)
    (issues : List Issue)
    (hskip : ∀ l ∈ skipped, findIssues l = none ∨ findIssues l = some [])
    (hlang : findIssues lang = some issues) (hne : issues ≠ []) :
    selectLanguage findIssues (skipped ++ lang :: rest)
      = (skipped ++ [lang], some (lang, issues)) := by
  induction skipped with
  | nil =>
    cases issues with
    | nil => exact absurd rfl hne
    | cons i is => simp [selectLanguage, hlang]
  | cons l ls ih =>
    have hl := hskip l (List.mem_cons_self l ls)
    have ihh := ih (fun x hx => hskip x (List.mem_cons_of_mem l hx))
    rcases hl with hnone | hempty
    · simp [selectLanguage, hnone, ihh]
    · simp [selectLanguage, hempty, ihh]

/-- A demonstration issue living in golang/go. -/
def issueA : Issue :=
  { repository_url := "https://api.github.com/repos/golang/go"
    title := "Improve docs"
    body := some "The docs are unclear."
    html_url := "https://github.com/golang/go/issues/1" }

/-- A demonstration issue living in spf13/cobra, with a null body. -/
def issueB : Issue :=
  { repository_url := "https://api.github.com/repos/spf13/cobra"
    title := "Fix flag parsing"
    body := none
    html_url := "https://github.com/spf13/cobra/issues/2" }

/-- A demonstration fetcher profiling to `["Python", "Go"]`. -/
def demoFetchPG : String → FetchResult := fun _ =>
  .success [⟨some "Python"⟩, ⟨some "Python"⟩, ⟨some "Go"⟩]

/-- A demonstration issue oracle: Python has no matches, Go has two. -/
def demoFindIssues : String → Option (List Issue) := fun lang =>
  if lang = "Python" then some []
  else if lang = "Go" then some [issueA, issueB] else none

/-- A trivial generative client over unit credentials. -/
def trivClient : Unit → String → GenOutcome := fun _ _ => .otherError

/-- The demonstration fetcher profiles to `["Python", "Go"]`. -/
theorem demoFetchPG_eval :
    get_user_top_languages demoFetchPG "octocat" 3 = ["Python", "Go"] := by
  simp [get_user_top_languages, demoFetchPG, mostCommon, counterEntries,
    firstOccurrences, countGe, List.count_cons, List.insertionSort,
    List.orderedInsert]

/-- One full demonstration run: Python is searched first and skipped, Go is
selected with its two issues annotated. -/
theorem demo_run_eval {K : Type} (keys : List K)
    (client : K → String → GenOutcome) :
    run_main demoFetchPG demoFindIssues keys client ["main.py", "octocat"]
      = (.found "Go" ([issueA, issueB].map (annotateIssue keys client)),
         [.profile "octocat", .search "Python", .search "Go"]) := by
  have hsel : selectLanguage demoFindIssues ["Python", "Go"]
      = (["Python", "Go"], some ("Go", [issueA, issueB])) := by
    simp [selectLanguage, demoFindIssues]
  simp [run_main, demoFetchPG_eval, hsel]

/-- C3: the orchestrator iterates the top-language list in order, selecting
the first language whose search yields a non-empty list, treating `None`
and `[]` identically (silently skipped); in particular with top languages
`["Python", "Go"]`, `findIssues("Python") = []` and `findIssues("Go")` two
issues, the run yields language Go with exactly those two annotated issues,
Python having been searched before Go (the call trace records the order). -/
theorem c3_first_language_selected
    (findIssues : String → Option (List Issue))
    (skipped : List String) (lang : String) (rest : List String)
    (issues : List Issue)
    (hskip : ∀ l ∈ skipped, findIssues l = none ∨ findIssues l = some [])
    (hlang : findIssues lang = some issues) (hne : issues ≠ []) :
    selectLanguage findIssues (skipped ++ lang :: rest)
      = (skipped ++ [lang], some (lang, issues))
    ∧ ∀ (K : Type) (keys : List K) (client : K → String → GenOutcome),
        run_main demoFetchPG demoFindIssues keys client ["main.py", "octocat"]
          = (.found "Go" ([issueA, issueB].map (annotateIssue keys client)),
             [.profile "octocat", .search "Python", .search "Go"]) :=
  ⟨selectLanguage_first_nonempty findIssues skipped lang rest issues
      hskip hlang hne,
   fun _ keys client => demo_run_eval keys client⟩

/-- Witness for C3 at concrete inputs: the demonstration oracles. -/
theorem c3_first_language_selected_witness :
    selectLanguage demoFindIssues (["Python"] ++ "Go" :: [])
      = (["Python"] ++ ["Go"], some ("Go", [issueA, issueB]))
    ∧ run_main demoFetchPG demoFindIssues ([] : List Unit) trivClient
        ["main.py", "octocat"]
      = (.found "Go" ([issueA, issueB].map (annotateIssue [] trivClient)),
         [.profile "octocat", .search "Python", .search "Go"]) := by
  have h := c3_first_language_selected demoFindIssues ["Python"] "Go" []
    [issueA, issueB]
    (by
      intro l hl
      rcases List.mem_singleton.mp hl with rfl
      right
      rfl)
    (by simp [demoFindIssues])
    (by simp)
  exact ⟨h.1, h.2 Unit [] trivClient⟩

/-- C5: the CLI exits 1 exactly when the username argument is missing or no
top languages are determined, and exits 0 otherwise — including when no
suitable issue is found in any top language; when the argument is missing
the fixed usage message is reported and no external call is made (the call
trace is empty). -/
theorem c5_exit_codes {K : Type} (fetchRepos : String → FetchResult)
    (findIssues : String → Option (List Issue))
    (keys : List K) (client : K → String → GenOutcome)
    (argv : List String) :
    (argv.length < 2 →
      run_main fetchRepos findIssues keys client argv
        = (.usageError usageMessage, [])
      ∧ exitCode (run_main fetchRepos findIssues keys client argv).1 = 1)
    ∧ (∀ a username rest, argv = a :: username :: rest →
        exitCode (run_main fetchRepos findIssues keys client argv).1
          = if get_user_top_languages fetchRepos username 3 = [] then 1
            else 0) := by
  constructor
  · intro hlen
    cases argv with
    | nil => exact ⟨rfl, rfl⟩
    | cons a t =>
      cases t with
      | nil => exact ⟨rfl, rfl⟩
      | cons b r => simp at hlen; omega
  · intro a username rest hargv
    subst hargv
    by_cases htop : get_user_top_languages fetchRepos username 3 = []
    · simp [run_main, htop, exitCode]
    · rw [if_neg htop]
      cases hsel : (selectLanguage findIssues
          (get_user_top_languages fetchRepos username 3)).2 with
      | none => simp [run_main, htop, hsel, exitCode]
      | some pr =>
        obtain ⟨lang, issues⟩ := pr
        simp [run_main, htop, hsel, exitCode]

/-- Witness for C5 at concrete inputs: a one-element argv reports usage with
no calls; a failing fetch exits 1; the Python/Go demonstration exits 0. -/
theorem c5_exit_codes_witness :
    (run_main demoFetchFail demoFindIssues ([] : List Unit) trivClient
        ["main.py"]
      = (.usageError usageMessage, []))
    ∧ exitCode (run_main demoFetchFail demoFindIssues ([] : List Unit)
        trivClient ["main.py", "octocat"]).1 = 1
    ∧ exitCode (run_main demoFetchPG demoFindIssues ([] : List Unit)
        trivClient ["main.py", "octocat"]).1 = 0 := by
  refine ⟨((c5_exit_codes demoFetchFail demoFindIssues [] trivClient
      ["main.py"]).1 (by decide)).1, ?_, ?_⟩
  · have h := (c5_exit_codes demoFetchFail demoFindIssues [] trivClient
      ["main.py", "octocat"]).2 "main.py" "octocat" [] rfl
    rw [h, if_pos (by simp [get_user_top_languages, demoFetchFail])]
  · have h := (c5_exit_codes demoFetchPG demoFindIssues [] trivClient
      ["main.py", "octocat"]).2 "main.py" "octocat" [] rfl
    rw [h, if_neg (by rw [demoFetchPG_eval]; simp)]

/-- Python negative indexing on a list ending in `[a, b]`: index `-2` is
`a` and index `-1` is `b`. -/
theorem getD_last_two (a b : String) :
    ∀ (pre : List String),
      (pre ++ [a, b]).getD ((pre ++ [a, b]).length - 2) "" = a
      ∧ (pre ++ [a, b]).getD ((pre ++ [a, b]).length - 1) "" = b := by
  intro pre
  induction pre with
  | nil => exact ⟨rfl, rfl⟩
  | cons x xs ih =>
    rcases ih with ⟨ih1, ih2⟩
    constructor
    · have hidx : ((x :: xs) ++ [a, b]).length - 2
          = ((xs ++ [a, b]).length - 2) + 1 := by
        simp only [List.cons_append, List.length_cons, List.length_append,
          List.length_nil]
        omega
      rw [hidx, List.cons_append, List.getD_cons_succ]
      exact ih1
    · have hidx : ((x :: xs) ++ [a, b]).length - 1
          = ((xs ++ [a, b]).length - 1) + 1 := by
        simp only [List.cons_append, List.length_cons, List.length_append,
          List.length_nil]
        omega
      rw [hidx, List.cons_append, List.getD_cons_succ]
      exact ih2

/-- A selected language really was searched and yielded exactly the
selected issues. -/
theorem selectLanguage_some (findIssues : String → Option (List Issue)) :
    ∀ (langs : List String) (lang : String) (issues : List Issue),
      (selectLanguage findIssues langs).2 = some (lang, issues) →
      findIssues lang = some issues := by
  intro langs
  induction langs with
  | nil => intro lang issues h; simp [selectLanguage] at h
  | cons l rest ih =>
    intro lang issues h
    cases hfi : findIssues l with
    | none =>
      simp only [selectLanguage, hfi] at h
      exact ih lang issues h
    | some lst =>
      cases lst with
      | nil =>
        simp only [selectLanguage, hfi] at h
        exact ih lang issues h
      | cons i is =>
        simp only [selectLanguage, hfi, Option.some.injEq, Prod.mk.injEq] at h
        obtain ⟨rfl, rfl⟩ := h
        exact hfi

/-- C7: for every issue in the selected result sequence, the derived
repository full name is the last two segments of the issue's repository
reference split on the path separator, joined with a slash. -/
theorem c7_repo_full_name :
    (∀ (url a b : String) (pre : List String),
      pySplit url '/' = pre ++ [a, b] → repoFullName url = a ++ "/" ++ b)
    ∧ ∀ (K : Type) (fetchRepos : String → FetchResult)
        (findIssues : String → Option (List Issue))
        (keys : List K) (client : K → String → GenOutcome)
        (argv : List String) (lang : String)
        (annotated : List AnnotatedIssue),
        (run_main fetchRepos findIssues keys client argv).1
          = .found lang annotated →
        ∃ issues, findIssues lang = some issues
          ∧ annotated = issues.map (annotateIssue keys client)
          ∧ ∀ x ∈ annotated, ∃ i ∈ issues,
              x.repo_name = repoFullName i.repository_url := by
  constructor
  · intro url a b pre h
    unfold repoFullName pyNegIdx
    rw [h, (getD_last_two a b pre).1, (getD_last_two a b pre).2]
  · intro K fetchRepos findIssues keys client argv lang annotated hrun
    rcases argv with _ | ⟨a0, _ | ⟨username, rest⟩⟩
    · simp [run_main] at hrun
    · simp [run_main] at hrun
    · by_cases htop : get_user_top_languages fetchRepos username 3 = []
      · simp [run_main, htop] at hrun
      · cases hsel : (selectLanguage findIssues
            (get_user_top_languages fetchRepos username 3)).2 with
        | none => simp [run_main, htop, hsel] at hrun
        | some pr =>
          obtain ⟨l2, iss⟩ := pr
          simp only [run_main, htop, hsel, if_neg htop,
            CliResult.found.injEq] at hrun
          obtain ⟨rfl, rfl⟩ := hrun
          refine ⟨iss, selectLanguage_some findIssues _ _ _ hsel, rfl, ?_⟩
          intro x hx
          rcases List.mem_map.mp hx with ⟨i, hi, rfl⟩
          exact ⟨i, hi, rfl⟩

/-- Witness for C7 at concrete inputs: a concrete repository URL and the
demonstration run. -/
theorem c7_repo_full_name_witness :
    repoFullName "https://api.github.com/repos/golang/go"
      = "golang" ++ "/" ++ "go"
    ∧ ∃ issues, demoFindIssues "Go" = some issues
        ∧ [issueA, issueB].map (annotateIssue ([] : List Unit) trivClient)
          = issues.map (annotateIssue [] trivClient)
        ∧ ∀ x ∈ [issueA, issueB].map (annotateIssue ([] : List Unit)
            trivClient),
            ∃ i ∈ issues, x.repo_name = repoFullName i.repository_url := by
  constructor
  · exact c7_repo_full_name.1 "https://api.github.com/repos/golang/go"
      "golang" "go" ["https:", "", "api.github.com", "repos"] (by decide)
  · exact c7_repo_full_name.2 Unit demoFetchPG demoFindIssues [] trivClient
      ["main.py", "octocat"] "Go"
      ([issueA, issueB].map (annotateIssue [] trivClient))
      (by rw [demo_run_eval ([] : List Unit) trivClient])

/-! ### HTTP entry point

The repository also exposes the pipeline over HTTP, but the server file is
not under `src/` (only `backend/main.py` is); the endpoint below is
modelled from the spec. -/

/-- Modelled from the spec: an incoming HTTP request, reduced to what the
`/analyze` route consumes — the method, the path, and the optional
`username` string field of the JSON body. -/
structure HttpRequest where
  method : String
  path : String
  username : Option String

/-- Modelled from the spec: the JSON values the endpoint answers with. -/
inductive Json where
  | str (s : String)
  | arr (xs : List Json)
  | obj (fields : List (String × Json))

/-- Modelled from the spec: one annotated issue rendered as the JSON object
with keys `repo_name`, `title`, `link`, `ai_reason`. -/
def issueJson (x : AnnotatedIssue) : Json :=
  .obj [("repo_name", .str x.repo_name), ("title", .str x.title),
        ("link", .str x.link), ("ai_reason", .str x.ai_reason)]

/-- Modelled from the spec: the server routes exactly one endpoint,
`POST /analyze`; the missing server file is modelled as running the same
pipeline as the CLI and answering `{"language": ..., "issues": [...]}` on
success and `{"error": ...}` for a missing `username` field, an
undetermined language list, or an empty search.  Any other method/path
pair is not routed (`none`). -/
def analyze_endpoint {K : Type} (fetchRepos : String → FetchResult)
    (findIssues : String → Option (List Issue))
    (keys : List K) (client : K → String → GenOutcome)
    (req : HttpRequest) : Option Json :=
  if req.method = "POST" ∧ req.path = "/analyze" then
    some (match req.username with
      | none => .obj [("error", .str "Username is required")]
      | some username =>
        if get_user_top_languages fetchRepos username 3 = [] then
          .obj [("error", .str "Could not determine top languages")]
        else
          match (selectLanguage findIssues
              (get_user_top_languages fetchRepos username 3)).2 with
          | some (lang, issues) =>
            .obj [("language", .str lang),
                  ("issues",
                    .arr ((issues.map (annotateIssue keys client)).map
                      issueJson))]
          | none => .obj [("error", .str "No suitable issues found")])
  else none

/-- C8: besides the CLI (`run_main`), the system exposes a single HTTP
endpoint: a request is routed exactly when it is `POST /analyze` (no other
route exists), its body is read for the `username` string field, and every
answer is either `{"language": string, "issues": [...]}` or
`{"error": string}`. -/
theorem c8_http_endpoint {K : Type} (fetchRepos : String → FetchResult)
    (findIssues : String → Option (List Issue))
    (keys : List K) (client : K → String → GenOutcome)
    (req : HttpRequest) :
    ((analyze_endpoint fetchRepos findIssues keys client req).isSome
      ↔ (req.method = "POST" ∧ req.path = "/analyze"))
    ∧ ∀ j, analyze_endpoint fetchRepos findIssues keys client req = some j →
        (∃ lang issues, j = .obj [("language", .str lang),
            ("issues", .arr issues)])
        ∨ (∃ msg, j = .obj [("error", .str msg)]) := by
  by_cases hroute : req.method = "POST" ∧ req.path = "/analyze"
  · constructor
    · simp [analyze_endpoint, hroute]
    · intro j hj
      rw [analyze_endpoint, if_pos hroute, Option.some.injEq] at hj
      subst hj
      cases hu : req.username with
      | none => right; exact ⟨_, rfl⟩
      | some username =>
        simp only [hu]
        by_cases htop : get_user_top_languages fetchRepos username 3 = []
        · right
          rw [if_pos htop]
          exact ⟨_, rfl⟩
        · rw [if_neg htop]
          cases hsel : (selectLanguage findIssues
              (get_user_top_languages fetchRepos username 3)).2 with
          | none => right; exact ⟨_, rfl⟩
          | some pr =>
            obtain ⟨lang, issues⟩ := pr
            left
            exact ⟨lang, _, rfl⟩
  · constructor
    · simp [analyze_endpoint, hroute]
    · intro j hj
      rw [analyze_endpoint, if_neg hroute] at hj
      cases hj

/-- The endpoint's answer to `POST /analyze` with username octocat on the
demonstration oracles: the success object for Go with its two issues. -/
theorem demo_endpoint_eval :
    analyze_endpoint demoFetchPG demoFindIssues ([] : List Unit) trivClient
      ⟨"POST", "/analyze", some "octocat"⟩
      = some (.obj [("language", .str "Go"),
          ("issues", .arr (([issueA, issueB].map
            (annotateIssue [] trivClient)).map issueJson))]) := by
  have hsel : selectLanguage demoFindIssues ["Python", "Go"]
      = (["Python", "Go"], some ("Go", [issueA, issueB])) := by
    simp [selectLanguage, demoFindIssues]
  simp [analyze_endpoint, demoFetchPG_eval, hsel]

/-- Witness for C8 at concrete inputs: a `POST /analyze` request is routed,
its concrete answer has the success shape, and a `GET /analyze` request is
not routed. -/
theorem c8_http_endpoint_witness :
    ((analyze_endpoint demoFetchPG demoFindIssues ([] : List Unit) trivClient
        ⟨"POST", "/analyze", some "octocat"⟩).isSome
      ↔ ("POST" = "POST" ∧ "/analyze" = "/analyze"))
    ∧ ((analyze_endpoint demoFetchPG demoFindIssues ([] : List Unit)
        trivClient ⟨"GET", "/analyze", some "octocat"⟩).isSome
      ↔ ("GET" = "POST" ∧ "/analyze" = "/analyze"))
    ∧ ((∃ lang issues,
          (Json.obj [("language", .str "Go"),
            ("issues", .arr (([issueA, issueB].map
              (annotateIssue ([] : List Unit) trivClient)).map issueJson))])
          = .obj [("language", .str lang), ("issues", .arr issues)])
        ∨ (∃ msg,
          (Json.obj [("language", .str "Go"),
            ("issues", .arr (([issueA, issueB].map
              (annotateIssue ([] : List Unit) trivClient)).map issueJson))])
          = .obj [("error", .str msg)])) :=
  ⟨(c8_http_endpoint demoFetchPG demoFindIssues [] trivClient
      ⟨"POST", "/analyze", some "octocat"⟩).1,
   (c8_http_endpoint demoFetchPG demoFindIssues [] trivClient
      ⟨"GET", "/analyze", some "octocat"⟩).1,
   (c8_http_endpoint demoFetchPG demoFindIssues [] trivClient
      ⟨"POST", "/analyze", some "octocat"⟩).2 _ demo_endpoint_eval⟩

end Compass
